import Mathlib

/-!
Verification of the Black-Scholes pricing engine (`black_scholes.py`).

The source computes with double-precision floats via numpy/scipy; here it is
embedded over the real numbers, with `scipy.stats.norm.pdf` and
`scipy.stats.norm.cdf` embedded as the exact standard normal density and its
cumulative distribution function (an integral over `Set.Iic`).
-/

open MeasureTheory Set

namespace BSPricer

/-- Standard normal probability density `φ`, the real-valued semantics of
`scipy.stats.norm.pdf`. -/
noncomputable def normPdf (x : ℝ) : ℝ :=
  (Real.sqrt (2 * Real.pi))⁻¹ * Real.exp (-(x ^ 2) / 2)

/-- Standard normal cumulative distribution `Φ`, the real-valued semantics of
`scipy.stats.norm.cdf`: the integral of `normPdf` over `(-∞, x]`. -/
noncomputable def normCdf (x : ℝ) : ℝ :=
  ∫ t in Set.Iic x, normPdf t

/-- The `BlackScholes` class of `black_scholes.py`: the constructor stores the
five parameters unchanged and performs no validation whatsoever. -/
structure BlackScholes where
  S : ℝ
  K : ℝ
  T : ℝ
  r : ℝ
  sigma : ℝ

namespace BlackScholes

/-- `BlackScholes._d1`. -/
noncomputable def _d1 (b : BlackScholes) : ℝ :=
  (Real.log (b.S / b.K) + (b.r + 0.5 * b.sigma ^ 2) * b.T) / (b.sigma * Real.sqrt b.T)

/-- `BlackScholes._d2`: re-invokes `_d1`. -/
noncomputable def _d2 (b : BlackScholes) : ℝ :=
  b._d1 - b.sigma * Real.sqrt b.T

/-- `BlackScholes.call_price`. -/
noncomputable def call_price (b : BlackScholes) : ℝ :=
  if b.T ≤ 0 then max 0 (b.S - b.K)
  else b.S * normCdf b._d1 - b.K * Real.exp (-b.r * b.T) * normCdf b._d2

/-- `BlackScholes.put_price`. -/
noncomputable def put_price (b : BlackScholes) : ℝ :=
  if b.T ≤ 0 then max 0 (b.K - b.S)
  else b.K * Real.exp (-b.r * b.T) * normCdf (-b._d2) - b.S * normCdf (-b._d1)

/-- `BlackScholes.delta_call`. -/
noncomputable def delta_call (b : BlackScholes) : ℝ :=
  if b.T ≤ 0 then (if b.S > b.K then 1 else 0)
  else normCdf b._d1

/-- `BlackScholes.delta_put`. -/
noncomputable def delta_put (b : BlackScholes) : ℝ :=
  if b.T ≤ 0 then (if b.S < b.K then -1 else 0)
  else normCdf b._d1 - 1

/-- `BlackScholes.gamma`. -/
noncomputable def gamma (b : BlackScholes) : ℝ :=
  if b.T ≤ 0 then 0
  else normPdf b._d1 / (b.S * b.sigma * Real.sqrt b.T)

/-- `BlackScholes.vega`. -/
noncomputable def vega (b : BlackScholes) : ℝ :=
  if b.T ≤ 0 then 0
  else b.S * normPdf b._d1 * Real.sqrt b.T

/-- `BlackScholes.theta_call`. -/
noncomputable def theta_call (b : BlackScholes) : ℝ :=
  if b.T ≤ 0 then 0
  else (-b.S * normPdf b._d1 * b.sigma / (2 * Real.sqrt b.T)
        - b.r * b.K * Real.exp (-b.r * b.T) * normCdf b._d2) / 365

/-- `BlackScholes.theta_put`. -/
noncomputable def theta_put (b : BlackScholes) : ℝ :=
  if b.T ≤ 0 then 0
  else (-b.S * normPdf b._d1 * b.sigma / (2 * Real.sqrt b.T)
        + b.r * b.K * Real.exp (-b.r * b.T) * normCdf (-b._d2)) / 365

/-- `BlackScholes.rho_call`. -/
noncomputable def rho_call (b : BlackScholes) : ℝ :=
  if b.T ≤ 0 then 0
  else b.K * b.T * Real.exp (-b.r * b.T) * normCdf b._d2

/-- `BlackScholes.rho_put`. -/
noncomputable def rho_put (b : BlackScholes) : ℝ :=
  if b.T ≤ 0 then 0
  else -b.K * b.T * Real.exp (-b.r * b.T) * normCdf (-b._d2)

end BlackScholes

/-- Python `str.lower()` on the ASCII strings the dispatcher compares against,
applied character by character. -/
def pyLower (s : String) : String :=
  String.mk (s.data.map Char.toLower)

/-- Module-level `calculate_option_price`: builds a `BlackScholes` object and
dispatches on `option_type.lower()`; any other string raises `ValueError`,
modelled as `Except.error` carrying the message. -/
noncomputable def calculate_option_price (S K T r sigma : ℝ)
    (option_type : String) : Except String ℝ :=
  let bs : BlackScholes := ⟨S, K, T, r, sigma⟩
  if pyLower option_type = "call" then Except.ok bs.call_price
  else if pyLower option_type = "put" then Except.ok bs.put_price
  else Except.error "option_type must be call or put"

/-! ### Formulas as the specification states them (for refinement comparison) -/

/-- The call-price formula exactly as the spec words it: `d1` and `d2` written
out, intrinsic value `max 0 (S - K)` when `T ≤ 0`. -/
noncomputable def call_price_claim (S K T r sigma : ℝ) : ℝ :=
  if T ≤ 0 then max 0 (S - K)
  else
    let d1 := (Real.log (S / K) + (r + 0.5 * sigma ^ 2) * T) / (sigma * Real.sqrt T)
    let d2 := d1 - sigma * Real.sqrt T
    S * normCdf d1 - K * Real.exp (-r * T) * normCdf d2

/-- The put-price formula exactly as the spec words it. -/
noncomputable def put_price_claim (S K T r sigma : ℝ) : ℝ :=
  if T ≤ 0 then max 0 (K - S)
  else
    let d1 := (Real.log (S / K) + (r + 0.5 * sigma ^ 2) * T) / (sigma * Real.sqrt T)
    let d2 := d1 - sigma * Real.sqrt T
    K * Real.exp (-r * T) * normCdf (-d2) - S * normCdf (-d1)

/-- Daily call theta as the spec words it: bracket divided by exactly 365. -/
noncomputable def theta_call_claim (S K T r sigma : ℝ) : ℝ :=
  let d1 := (Real.log (S / K) + (r + 0.5 * sigma ^ 2) * T) / (sigma * Real.sqrt T)
  let d2 := d1 - sigma * Real.sqrt T
  (-S * normPdf d1 * sigma / (2 * Real.sqrt T)
    - r * K * Real.exp (-r * T) * normCdf d2) / 365

/-- Daily put theta as the spec words it: bracket divided by exactly 365. -/
noncomputable def theta_put_claim (S K T r sigma : ℝ) : ℝ :=
  let d1 := (Real.log (S / K) + (r + 0.5 * sigma ^ 2) * T) / (sigma * Real.sqrt T)
  let d2 := d1 - sigma * Real.sqrt T
  (-S * normPdf d1 * sigma / (2 * Real.sqrt T)
    + r * K * Real.exp (-r * T) * normCdf (-d2)) / 365

/-! ### Cached-pair variant of the engine (the reimplementation the spec asks
for: `(d1, d2)` computed once per snapshot and shared by every method) -/

namespace Cached

/-- The pair `(d1, d2)` computed once: `d1` is evaluated a single time and
`d2` is derived from it without re-invoking the `d1` computation. -/
noncomputable def dPair (b : BlackScholes) : ℝ × ℝ :=
  let d1 := (Real.log (b.S / b.K) + (b.r + 0.5 * b.sigma ^ 2) * b.T)
    / (b.sigma * Real.sqrt b.T)
  (d1, d1 - b.sigma * Real.sqrt b.T)

/-- Call price computed from the cached pair. -/
noncomputable def call_price (b : BlackScholes) : ℝ :=
  if b.T ≤ 0 then max 0 (b.S - b.K)
  else b.S * normCdf (dPair b).1 - b.K * Real.exp (-b.r * b.T) * normCdf (dPair b).2

/-- Put price computed from the cached pair. -/
noncomputable def put_price (b : BlackScholes) : ℝ :=
  if b.T ≤ 0 then max 0 (b.K - b.S)
  else b.K * Real.exp (-b.r * b.T) * normCdf (-(dPair b).2) - b.S * normCdf (-(dPair b).1)

/-- Call delta computed from the cached pair. -/
noncomputable def delta_call (b : BlackScholes) : ℝ :=
  if b.T ≤ 0 then (if b.S > b.K then 1 else 0)
  else normCdf (dPair b).1

/-- Put delta computed from the cached pair. -/
noncomputable def delta_put (b : BlackScholes) : ℝ :=
  if b.T ≤ 0 then (if b.S < b.K then -1 else 0)
  else normCdf (dPair b).1 - 1

/-- Gamma computed from the cached pair. -/
noncomputable def gamma (b : BlackScholes) : ℝ :=
  if b.T ≤ 0 then 0
  else normPdf (dPair b).1 / (b.S * b.sigma * Real.sqrt b.T)

/-- Vega computed from the cached pair. -/
noncomputable def vega (b : BlackScholes) : ℝ :=
  if b.T ≤ 0 then 0
  else b.S * normPdf (dPair b).1 * Real.sqrt b.T

/-- Call theta computed from the cached pair. -/
noncomputable def theta_call (b : BlackScholes) : ℝ :=
  if b.T ≤ 0 then 0
  else (-b.S * normPdf (dPair b).1 * b.sigma / (2 * Real.sqrt b.T)
        - b.r * b.K * Real.exp (-b.r * b.T) * normCdf (dPair b).2) / 365

/-- Put theta computed from the cached pair. -/
noncomputable def theta_put (b : BlackScholes) : ℝ :=
  if b.T ≤ 0 then 0
  else (-b.S * normPdf (dPair b).1 * b.sigma / (2 * Real.sqrt b.T)
        + b.r * b.K * Real.exp (-b.r * b.T) * normCdf (-(dPair b).2)) / 365

/-- Call rho computed from the cached pair. -/
noncomputable def rho_call (b : BlackScholes) : ℝ :=
  if b.T ≤ 0 then 0
  else b.K * b.T * Real.exp (-b.r * b.T) * normCdf (dPair b).2

/-- Put rho computed from the cached pair. -/
noncomputable def rho_put (b : BlackScholes) : ℝ :=
  if b.T ≤ 0 then 0
  else -b.K * b.T * Real.exp (-b.r * b.T) * normCdf (-(dPair b).2)

end Cached

/-! ### The prices as functions of the underlying, for the monotonicity
analysis (log of the quotient expanded to a difference of logs, which agrees
with `_d1` whenever S > 0 and K > 0) -/

/-- `d1` as a function of the underlying price `s`. -/
noncomputable def d1fun (K T r sigma s : ℝ) : ℝ :=
  (Real.log s - Real.log K + (r + 0.5 * sigma ^ 2) * T) / (sigma * Real.sqrt T)

/-- The T > 0 call value as a function of the underlying price `s`. -/
noncomputable def callFun (K T r sigma s : ℝ) : ℝ :=
  s * normCdf (d1fun K T r sigma s)
    - K * Real.exp (-r * T) * normCdf (d1fun K T r sigma s - sigma * Real.sqrt T)

/-- The T > 0 put value as a function of the underlying price `s`. -/
noncomputable def putFun (K T r sigma s : ℝ) : ℝ :=
  K * Real.exp (-r * T) * normCdf (-(d1fun K T r sigma s - sigma * Real.sqrt T))
    - s * normCdf (-(d1fun K T r sigma s))

/-! ### Analytic facts about the standard normal density and CDF -/

lemma normPdf_pos (x : ℝ) : 0 < normPdf x := by
  unfold normPdf
  positivity

lemma normPdf_neg (x : ℝ) : normPdf (-x) = normPdf x := by
  simp [normPdf, neg_pow]

lemma continuous_normPdf : Continuous normPdf := by
  unfold normPdf
  fun_prop

lemma normPdf_eq (x : ℝ) :
    normPdf x = (Real.sqrt (2 * Real.pi))⁻¹ * Real.exp (-(2⁻¹ : ℝ) * x ^ 2) := by
  unfold normPdf
  ring_nf

lemma integrable_normPdf : Integrable normPdf := by
  have h : Integrable (fun x : ℝ =>
      (Real.sqrt (2 * Real.pi))⁻¹ * Real.exp (-(2⁻¹ : ℝ) * x ^ 2)) :=
    (integrable_exp_neg_mul_sq (by norm_num)).const_mul _
  exact h.congr (Filter.Eventually.of_forall fun x => (normPdf_eq x).symm)

lemma integral_normPdf : (∫ x : ℝ, normPdf x) = 1 := by
  have h : (∫ x : ℝ, normPdf x)
      = (Real.sqrt (2 * Real.pi))⁻¹ * ∫ x : ℝ, Real.exp (-(2⁻¹ : ℝ) * x ^ 2) := by
    rw [← integral_mul_left]
    exact integral_congr_ae (Filter.Eventually.of_forall fun x => normPdf_eq x)
  rw [h, integral_gaussian]
  have h2 : (Real.pi / (2⁻¹ : ℝ)) = 2 * Real.pi := by ring
  rw [h2]
  exact inv_mul_cancel₀ (ne_of_gt (Real.sqrt_pos.mpr (by positivity)))

lemma normCdf_nonneg (x : ℝ) : 0 ≤ normCdf x :=
  setIntegral_nonneg measurableSet_Iic fun t _ => (normPdf_pos t).le

lemma normCdf_le_one (x : ℝ) : normCdf x ≤ 1 := by
  rw [← integral_normPdf]
  exact setIntegral_le_integral integrable_normPdf
    (Filter.Eventually.of_forall fun t => (normPdf_pos t).le)

lemma normCdf_mono : Monotone normCdf := by
  intro x y hxy
  exact setIntegral_mono_set integrable_normPdf.integrableOn
    (Filter.Eventually.of_forall fun t => (normPdf_pos t).le)
    (HasSubset.Subset.eventuallyLE (Iic_subset_Iic.mpr hxy))

lemma normCdf_neg (x : ℝ) : normCdf (-x) = 1 - normCdf x := by
  have h1 : normCdf x + ∫ t in Ioi x, normPdf t = 1 := by
    have h : (∫ t in Iic x, normPdf t) + ∫ t in (Iic x)ᶜ, normPdf t = ∫ t : ℝ, normPdf t :=
      integral_add_compl measurableSet_Iic integrable_normPdf
    rw [compl_Iic, integral_normPdf] at h
    rw [normCdf]
    exact h
  have h2 : normCdf (-x) = ∫ t in Ioi x, normPdf t := by
    have h3 : (∫ t in Iic (-x), normPdf (-t)) = ∫ t in Ioi x, normPdf t := by
      rw [integral_comp_neg_Iic, neg_neg]
    rw [normCdf, ← h3]
    simp only [normPdf_neg]
  linarith

lemma hasDerivAt_normCdf (x : ℝ) : HasDerivAt normCdf (normPdf x) x := by
  have key : normCdf = fun y => normCdf 0 + ∫ t in (0:ℝ)..y, normPdf t := by
    funext y
    rw [← intervalIntegral.integral_Iic_sub_Iic integrable_normPdf.integrableOn
      integrable_normPdf.integrableOn]
    simp only [normCdf]
    ring
  have hd : HasDerivAt (fun y => ∫ t in (0:ℝ)..y, normPdf t) (normPdf x) x :=
    (continuous_normPdf.integral_hasStrictDerivAt 0 x).hasDerivAt
  rw [key]
  exact hd.const_add (normCdf 0)

/-! ### Monotonicity of the prices in the underlying -/

lemma normPdf_sub (a c : ℝ) :
    normPdf (a - c) = normPdf a * Real.exp (a * c - c ^ 2 / 2) := by
  unfold normPdf
  have h : -((a - c) ^ 2) / 2 = -(a ^ 2) / 2 + (a * c - c ^ 2 / 2) := by ring
  rw [h, Real.exp_add]
  ring

/-- The classical identity `S·φ(d1) = K·e^(−rT)·φ(d2)`, the reason the call
delta is exactly `Φ(d1)`. -/
lemma bs_pdf_identity (K T r sigma s : ℝ) (hs : 0 < s) (hK : 0 < K)
    (hT : 0 < T) (hsig : sigma ≠ 0) :
    s * normPdf (d1fun K T r sigma s)
      - K * Real.exp (-r * T)
          * normPdf (d1fun K T r sigma s - sigma * Real.sqrt T) = 0 := by
  have hsq : Real.sqrt T ≠ 0 := ne_of_gt (Real.sqrt_pos.mpr hT)
  have hc0 : sigma * Real.sqrt T ≠ 0 := mul_ne_zero hsig hsq
  have hc2 : (sigma * Real.sqrt T) ^ 2 = sigma ^ 2 * T := by
    rw [mul_pow, Real.sq_sqrt hT.le]
  rw [normPdf_sub]
  have hac : d1fun K T r sigma s * (sigma * Real.sqrt T)
      = Real.log s - Real.log K + (r + 0.5 * sigma ^ 2) * T := by
    unfold d1fun
    field_simp
  rw [hac, hc2]
  have he : Real.log s - Real.log K + (r + 0.5 * sigma ^ 2) * T - sigma ^ 2 * T / 2
      = Real.log s - Real.log K + r * T := by ring
  rw [he]
  have hK0 : K ≠ 0 := ne_of_gt hK
  have hKS : K * Real.exp (-r * T) * Real.exp (Real.log s - Real.log K + r * T) = s := by
    rw [mul_assoc, ← Real.exp_add]
    have h3 : -r * T + (Real.log s - Real.log K + r * T)
        = Real.log s - Real.log K := by ring
    rw [h3, Real.exp_sub, Real.exp_log hs, Real.exp_log hK]
    field_simp
  linear_combination (-normPdf (d1fun K T r sigma s)) * hKS

lemma hasDerivAt_d1fun (K T r sigma : ℝ) {s : ℝ} (hs : 0 < s) :
    HasDerivAt (d1fun K T r sigma) (s⁻¹ / (sigma * Real.sqrt T)) s := by
  have h1 : HasDerivAt Real.log s⁻¹ s := Real.hasDerivAt_log (ne_of_gt hs)
  exact ((h1.sub_const (Real.log K)).add_const
    ((r + 0.5 * sigma ^ 2) * T)).div_const (sigma * Real.sqrt T)

/-- The derivative of the T > 0 call value in the underlying is `Φ(d1)`. -/
lemma hasDerivAt_callFun (K T r sigma : ℝ) (hK : 0 < K) (hT : 0 < T)
    (hsig : 0 < sigma) {s : ℝ} (hs : 0 < s) :
    HasDerivAt (callFun K T r sigma) (normCdf (d1fun K T r sigma s)) s := by
  show HasDerivAt (fun y => y * normCdf (d1fun K T r sigma y)
    - K * Real.exp (-r * T)
        * normCdf (d1fun K T r sigma y - sigma * Real.sqrt T)) _ s
  have hd1 := hasDerivAt_d1fun K T r sigma hs
  have hcdf1 : HasDerivAt (fun y => normCdf (d1fun K T r sigma y))
      (normPdf (d1fun K T r sigma s) * (s⁻¹ / (sigma * Real.sqrt T))) s :=
    (hasDerivAt_normCdf _).comp s hd1
  have hmul : HasDerivAt (fun y => y * normCdf (d1fun K T r sigma y))
      (1 * normCdf (d1fun K T r sigma s)
        + s * (normPdf (d1fun K T r sigma s) * (s⁻¹ / (sigma * Real.sqrt T)))) s :=
    (hasDerivAt_id s).mul hcdf1
  have hd2 := hd1.sub_const (sigma * Real.sqrt T)
  have hcdf2 : HasDerivAt
      (fun y => normCdf (d1fun K T r sigma y - sigma * Real.sqrt T))
      (normPdf (d1fun K T r sigma s - sigma * Real.sqrt T)
        * (s⁻¹ / (sigma * Real.sqrt T))) s :=
    (hasDerivAt_normCdf _).comp s hd2
  have hterm2 := hcdf2.const_mul (K * Real.exp (-r * T))
  have htotal := hmul.sub hterm2
  have hzero := bs_pdf_identity K T r sigma s hs hK hT (ne_of_gt hsig)
  convert htotal using 1
  linear_combination (-(s⁻¹ / (sigma * Real.sqrt T))) * hzero

/-- The derivative of the T > 0 put value in the underlying is `−Φ(−d1)`. -/
lemma hasDerivAt_putFun (K T r sigma : ℝ) (hK : 0 < K) (hT : 0 < T)
    (hsig : 0 < sigma) {s : ℝ} (hs : 0 < s) :
    HasDerivAt (putFun K T r sigma) (-normCdf (-(d1fun K T r sigma s))) s := by
  show HasDerivAt (fun y => K * Real.exp (-r * T)
      * normCdf (-(d1fun K T r sigma y - sigma * Real.sqrt T))
    - y * normCdf (-(d1fun K T r sigma y))) _ s
  have hd1 := hasDerivAt_d1fun K T r sigma hs
  have hnd2 := (hd1.sub_const (sigma * Real.sqrt T)).neg
  have hcdf2 : HasDerivAt
      (fun y => normCdf (-(d1fun K T r sigma y - sigma * Real.sqrt T)))
      (normPdf (-(d1fun K T r sigma s - sigma * Real.sqrt T))
        * -(s⁻¹ / (sigma * Real.sqrt T))) s :=
    (hasDerivAt_normCdf _).comp s hnd2
  have hterm1 := hcdf2.const_mul (K * Real.exp (-r * T))
  have hnd1 := hd1.neg
  have hcdf1 : HasDerivAt (fun y => normCdf (-(d1fun K T r sigma y)))
      (normPdf (-(d1fun K T r sigma s)) * -(s⁻¹ / (sigma * Real.sqrt T))) s :=
    (hasDerivAt_normCdf _).comp s hnd1
  have hmul : HasDerivAt (fun y => y * normCdf (-(d1fun K T r sigma y)))
      (1 * normCdf (-(d1fun K T r sigma s))
        + s * (normPdf (-(d1fun K T r sigma s))
          * -(s⁻¹ / (sigma * Real.sqrt T)))) s :=
    (hasDerivAt_id s).mul hcdf1
  have htotal := hterm1.sub hmul
  have hzero := bs_pdf_identity K T r sigma s hs hK hT (ne_of_gt hsig)
  convert htotal using 1
  rw [normPdf_neg, normPdf_neg]
  linear_combination (-(s⁻¹ / (sigma * Real.sqrt T))) * hzero

lemma callFun_monotoneOn (K T r sigma : ℝ) (hK : 0 < K) (hT : 0 < T)
    (hsig : 0 < sigma) : MonotoneOn (callFun K T r sigma) (Ioi 0) := by
  have hder : ∀ s ∈ Ioi (0:ℝ),
      HasDerivAt (callFun K T r sigma) (normCdf (d1fun K T r sigma s)) s :=
    fun s hs => hasDerivAt_callFun K T r sigma hK hT hsig hs
  apply monotoneOn_of_deriv_nonneg (convex_Ioi 0)
  · exact fun s hs => (hder s hs).continuousAt.continuousWithinAt
  · intro s hs
    rw [interior_Ioi] at hs
    exact (hder s hs).differentiableAt.differentiableWithinAt
  · intro s hs
    rw [interior_Ioi] at hs
    rw [(hder s hs).deriv]
    exact normCdf_nonneg _

lemma putFun_antitoneOn (K T r sigma : ℝ) (hK : 0 < K) (hT : 0 < T)
    (hsig : 0 < sigma) : AntitoneOn (putFun K T r sigma) (Ioi 0) := by
  have hder : ∀ s ∈ Ioi (0:ℝ),
      HasDerivAt (putFun K T r sigma) (-normCdf (-(d1fun K T r sigma s))) s :=
    fun s hs => hasDerivAt_putFun K T r sigma hK hT hsig hs
  apply antitoneOn_of_deriv_nonpos (convex_Ioi 0)
  · exact fun s hs => (hder s hs).continuousAt.continuousWithinAt
  · intro s hs
    rw [interior_Ioi] at hs
    exact (hder s hs).differentiableAt.differentiableWithinAt
  · intro s hs
    rw [interior_Ioi] at hs
    rw [(hder s hs).deriv]
    exact neg_nonpos.mpr (normCdf_nonneg _)

lemma call_price_eq_callFun (b : BlackScholes) (hS : 0 < b.S) (hK : 0 < b.K)
    (hT : 0 < b.T) : b.call_price = callFun b.K b.T b.r b.sigma b.S := by
  unfold BlackScholes.call_price callFun BlackScholes._d2 BlackScholes._d1 d1fun
  rw [if_neg (not_le.mpr hT), Real.log_div (ne_of_gt hS) (ne_of_gt hK)]

lemma put_price_eq_putFun (b : BlackScholes) (hS : 0 < b.S) (hK : 0 < b.K)
    (hT : 0 < b.T) : b.put_price = putFun b.K b.T b.r b.sigma b.S := by
  unfold BlackScholes.put_price putFun BlackScholes._d2 BlackScholes._d1 d1fun
  rw [if_neg (not_le.mpr hT), Real.log_div (ne_of_gt hS) (ne_of_gt hK)]

/-! ### Claim theorems -/

/-- C1: the claim says an InvalidParameter failure is signalled for sigma ≤ 0
(and the spec adds: *not* a silent numeric return). The code has no validation
anywhere: with S=110, K=100, T=0, r=0.05, sigma=-1 — an invalid snapshot —
`call_price` silently returns the number 10. -/
theorem C1_invalid_sigma_returns_number :
    BlackScholes.call_price ⟨110, 100, 0, 0.05, -1⟩ = 10 := by
  show (if (0:ℝ) ≤ 0 then max 0 ((110:ℝ) - 100) else _) = 10
  norm_num

/-- C2: for S > 0, K > 0, sigma > 0 the call price is `max 0 (S-K)` when
T ≤ 0 and otherwise the Black-Scholes formula with d1, d2 as the claim
writes them. -/
theorem C2_call_price_formula (b : BlackScholes) (hS : 0 < b.S) (hK : 0 < b.K)
    (hsig : 0 < b.sigma) :
    b.call_price = call_price_claim b.S b.K b.T b.r b.sigma := rfl

/-- Witness for C2 at S=100, K=100, T=1, r=0.05, sigma=0.2. -/
theorem C2_call_price_formula_witness :
    BlackScholes.call_price ⟨100, 100, 1, 0.05, 0.2⟩
      = call_price_claim 100 100 1 0.05 0.2 :=
  C2_call_price_formula ⟨100, 100, 1, 0.05, 0.2⟩
    (by norm_num) (by norm_num) (by norm_num)

/-- C3: for S > 0, K > 0, sigma > 0 the put price is `max 0 (K-S)` when
T ≤ 0 and otherwise `K·e^(−rT)·Φ(−d2) − S·Φ(−d1)`. -/
theorem C3_put_price_formula (b : BlackScholes) (hS : 0 < b.S) (hK : 0 < b.K)
    (hsig : 0 < b.sigma) :
    b.put_price = put_price_claim b.S b.K b.T b.r b.sigma := rfl

/-- Witness for C3 at S=50, K=60, T=0.5, r=0.03, sigma=0.3. -/
theorem C3_put_price_formula_witness :
    BlackScholes.put_price ⟨50, 60, 0.5, 0.03, 0.3⟩
      = put_price_claim 50 60 0.5 0.03 0.3 :=
  C3_put_price_formula ⟨50, 60, 0.5, 0.03, 0.3⟩
    (by norm_num) (by norm_num) (by norm_num)

/-- C4: put-call parity, exactly, over the real-number embedding: for every
valid snapshot with T > 0, `call_price - put_price = S - K·e^(−rT)`. -/
theorem C4_put_call_parity (b : BlackScholes) (hS : 0 < b.S) (hK : 0 < b.K)
    (hsig : 0 < b.sigma) (hT : 0 < b.T) :
    b.call_price - b.put_price = b.S - b.K * Real.exp (-b.r * b.T) := by
  unfold BlackScholes.call_price BlackScholes.put_price
  rw [if_neg (not_le.mpr hT), if_neg (not_le.mpr hT), normCdf_neg, normCdf_neg]
  ring

/-- Witness for C4 at S=100, K=100, T=1, r=0.05, sigma=0.2. -/
theorem C4_put_call_parity_witness :
    BlackScholes.call_price ⟨100, 100, 1, 0.05, 0.2⟩
        - BlackScholes.put_price ⟨100, 100, 1, 0.05, 0.2⟩
      = 100 - 100 * Real.exp (-(0.05) * 1) :=
  C4_put_call_parity ⟨100, 100, 1, 0.05, 0.2⟩
    (by norm_num) (by norm_num) (by norm_num) (by norm_num)

/-- C5: at or after expiry (T ≤ 0) delta_call is 1 if S > K else 0, delta_put
is -1 if S < K else 0, and gamma, vega, both thetas and both rhos are 0; and
with S=110, K=100, T=0 the call price is exactly 10. -/
theorem C5_expiry_values (b : BlackScholes) (hT : b.T ≤ 0) :
    b.delta_call = (if b.S > b.K then 1 else 0) ∧
    b.delta_put = (if b.S < b.K then -1 else 0) ∧
    b.gamma = 0 ∧ b.vega = 0 ∧ b.theta_call = 0 ∧ b.theta_put = 0 ∧
    b.rho_call = 0 ∧ b.rho_put = 0 ∧
    BlackScholes.call_price ⟨110, 100, 0, b.r, b.sigma⟩ = 10 := by
  unfold BlackScholes.delta_call BlackScholes.delta_put BlackScholes.gamma
    BlackScholes.vega BlackScholes.theta_call BlackScholes.theta_put
    BlackScholes.rho_call BlackScholes.rho_put
  simp only [if_pos hT]
  refine ⟨trivial, trivial, trivial, trivial, trivial, trivial, trivial, trivial, ?_⟩
  show (if (0:ℝ) ≤ 0 then max 0 ((110:ℝ) - 100) else _) = 10
  norm_num

/-- Witness for C5 at S=110, K=100, T=0, r=0.05, sigma=0.2. -/
theorem C5_expiry_values_witness :
    BlackScholes.delta_call ⟨110, 100, 0, 0.05, 0.2⟩ = (if (110:ℝ) > 100 then 1 else 0) ∧
    BlackScholes.delta_put ⟨110, 100, 0, 0.05, 0.2⟩ = (if (110:ℝ) < 100 then -1 else 0) ∧
    BlackScholes.gamma ⟨110, 100, 0, 0.05, 0.2⟩ = 0 ∧
    BlackScholes.vega ⟨110, 100, 0, 0.05, 0.2⟩ = 0 ∧
    BlackScholes.theta_call ⟨110, 100, 0, 0.05, 0.2⟩ = 0 ∧
    BlackScholes.theta_put ⟨110, 100, 0, 0.05, 0.2⟩ = 0 ∧
    BlackScholes.rho_call ⟨110, 100, 0, 0.05, 0.2⟩ = 0 ∧
    BlackScholes.rho_put ⟨110, 100, 0, 0.05, 0.2⟩ = 0 ∧
    BlackScholes.call_price ⟨110, 100, 0, (0.05:ℝ), (0.2:ℝ)⟩ = 10 :=
  C5_expiry_values ⟨110, 100, 0, 0.05, 0.2⟩ (by norm_num)

/-- C6: for T > 0 both thetas are the stated bracket divided by exactly 365. -/
theorem C6_daily_theta (b : BlackScholes) (hT : 0 < b.T) :
    b.theta_call = theta_call_claim b.S b.K b.T b.r b.sigma ∧
    b.theta_put = theta_put_claim b.S b.K b.T b.r b.sigma := by
  unfold BlackScholes.theta_call BlackScholes.theta_put
  rw [if_neg (not_le.mpr hT), if_neg (not_le.mpr hT)]
  exact ⟨rfl, rfl⟩

/-- Witness for C6 at S=100, K=100, T=1, r=0.05, sigma=0.2. -/
theorem C6_daily_theta_witness :
    BlackScholes.theta_call ⟨100, 100, 1, 0.05, 0.2⟩
        = theta_call_claim 100 100 1 0.05 0.2 ∧
    BlackScholes.theta_put ⟨100, 100, 1, 0.05, 0.2⟩
        = theta_put_claim 100 100 1 0.05 0.2 :=
  C6_daily_theta ⟨100, 100, 1, 0.05, 0.2⟩ (by norm_num)

/-- C7: on every valid snapshot delta_call lies in [0, 1] and delta_put lies
in [-1, 0], in both the T ≤ 0 and the T > 0 branch. -/
theorem C7_delta_bounds (b : BlackScholes) (hS : 0 < b.S) (hK : 0 < b.K)
    (hT : 0 ≤ b.T) (hsig : 0 < b.sigma) :
    (0 ≤ b.delta_call ∧ b.delta_call ≤ 1) ∧
    (-1 ≤ b.delta_put ∧ b.delta_put ≤ 0) := by
  unfold BlackScholes.delta_call BlackScholes.delta_put
  by_cases h : b.T ≤ 0
  · simp only [if_pos h]
    refine ⟨⟨?_, ?_⟩, ?_, ?_⟩ <;> split <;> norm_num
  · simp only [if_neg h]
    have h1 := normCdf_nonneg b._d1
    have h2 := normCdf_le_one b._d1
    exact ⟨⟨h1, h2⟩, by linarith, by linarith⟩

/-- Witness for C7 at S=100, K=100, T=1, r=0.05, sigma=0.2. -/
theorem C7_delta_bounds_witness :
    (0 ≤ BlackScholes.delta_call ⟨100, 100, 1, 0.05, 0.2⟩ ∧
      BlackScholes.delta_call ⟨100, 100, 1, 0.05, 0.2⟩ ≤ 1) ∧
    (-1 ≤ BlackScholes.delta_put ⟨100, 100, 1, 0.05, 0.2⟩ ∧
      BlackScholes.delta_put ⟨100, 100, 1, 0.05, 0.2⟩ ≤ 0) :=
  C7_delta_bounds ⟨100, 100, 1, 0.05, 0.2⟩
    (by norm_num) (by norm_num) (by norm_num) (by norm_num)

/-- C8: for fixed K > 0, T ≥ 0, r, sigma > 0 and 0 < S1 ≤ S2, the call price
is non-decreasing and the put price non-increasing in the underlying, in both
the T ≤ 0 and the T > 0 branch. -/
theorem C8_monotone_in_underlying (K T r sigma S1 S2 : ℝ) (hK : 0 < K)
    (hT : 0 ≤ T) (hsig : 0 < sigma) (h1 : 0 < S1) (h12 : S1 ≤ S2) :
    BlackScholes.call_price ⟨S1, K, T, r, sigma⟩
        ≤ BlackScholes.call_price ⟨S2, K, T, r, sigma⟩ ∧
    BlackScholes.put_price ⟨S2, K, T, r, sigma⟩
        ≤ BlackScholes.put_price ⟨S1, K, T, r, sigma⟩ := by
  have h2 : 0 < S2 := lt_of_lt_of_le h1 h12
  rcases le_or_lt T 0 with hT0 | hT0
  · constructor
    · show (if T ≤ 0 then max 0 (S1 - K) else _)
        ≤ (if T ≤ 0 then max 0 (S2 - K) else _)
      rw [if_pos hT0, if_pos hT0]
      exact max_le_max le_rfl (by linarith)
    · show (if T ≤ 0 then max 0 (K - S2) else _)
        ≤ (if T ≤ 0 then max 0 (K - S1) else _)
      rw [if_pos hT0, if_pos hT0]
      exact max_le_max le_rfl (by linarith)
  · have e1 : BlackScholes.call_price ⟨S1, K, T, r, sigma⟩
        = callFun K T r sigma S1 :=
      call_price_eq_callFun ⟨S1, K, T, r, sigma⟩ h1 hK hT0
    have e2 : BlackScholes.call_price ⟨S2, K, T, r, sigma⟩
        = callFun K T r sigma S2 :=
      call_price_eq_callFun ⟨S2, K, T, r, sigma⟩ h2 hK hT0
    have e3 : BlackScholes.put_price ⟨S1, K, T, r, sigma⟩
        = putFun K T r sigma S1 :=
      put_price_eq_putFun ⟨S1, K, T, r, sigma⟩ h1 hK hT0
    have e4 : BlackScholes.put_price ⟨S2, K, T, r, sigma⟩
        = putFun K T r sigma S2 :=
      put_price_eq_putFun ⟨S2, K, T, r, sigma⟩ h2 hK hT0
    rw [e1, e2, e3, e4]
    exact ⟨callFun_monotoneOn K T r sigma hK hT0 hsig
        (mem_Ioi.mpr h1) (mem_Ioi.mpr h2) h12,
      putFun_antitoneOn K T r sigma hK hT0 hsig
        (mem_Ioi.mpr h1) (mem_Ioi.mpr h2) h12⟩

/-- Witness for C8 at K=100, T=1, r=0.05, sigma=0.2, S1=100, S2=110. -/
theorem C8_monotone_in_underlying_witness :
    BlackScholes.call_price ⟨100, 100, 1, 0.05, 0.2⟩
        ≤ BlackScholes.call_price ⟨110, 100, 1, 0.05, 0.2⟩ ∧
    BlackScholes.put_price ⟨110, 100, 1, 0.05, 0.2⟩
        ≤ BlackScholes.put_price ⟨100, 100, 1, 0.05, 0.2⟩ :=
  C8_monotone_in_underlying 100 1 0.05 0.2 100 110
    (by norm_num) (by norm_num) (by norm_num) (by norm_num) (by norm_num)

/-- C9: the cached-pair variant (d1 computed once per snapshot, d2 derived
from it, the pair shared by every method) returns the identical value as the
original implementation for every public operation on every snapshot. -/
theorem C9_cached_pair_refinement (b : BlackScholes) :
    Cached.call_price b = b.call_price ∧
    Cached.put_price b = b.put_price ∧
    Cached.delta_call b = b.delta_call ∧
    Cached.delta_put b = b.delta_put ∧
    Cached.gamma b = b.gamma ∧
    Cached.vega b = b.vega ∧
    Cached.theta_call b = b.theta_call ∧
    Cached.theta_put b = b.theta_put ∧
    Cached.rho_call b = b.rho_call ∧
    Cached.rho_put b = b.rho_put :=
  ⟨rfl, rfl, rfl, rfl, rfl, rfl, rfl, rfl, rfl, rfl⟩

/-- C10: `calculate_option_price` dispatches on the lower-cased option_type:
"call" gives the call price, "put" the put price, anything else raises
ValueError. -/
theorem C10_option_type_dispatch (S K T r sigma : ℝ) (option_type : String) :
    (pyLower option_type = "call" →
      calculate_option_price S K T r sigma option_type
        = Except.ok (BlackScholes.call_price ⟨S, K, T, r, sigma⟩)) ∧
    (pyLower option_type = "put" →
      calculate_option_price S K T r sigma option_type
        = Except.ok (BlackScholes.put_price ⟨S, K, T, r, sigma⟩)) ∧
    (pyLower option_type ≠ "call" → pyLower option_type ≠ "put" →
      calculate_option_price S K T r sigma option_type
        = Except.error "option_type must be call or put") := by
  unfold calculate_option_price
  refine ⟨fun h => ?_, fun h => ?_, fun h1 h2 => ?_⟩
  · rw [if_pos h]
  · have hc : ¬ pyLower option_type = "call" := by rw [h]; decide
    rw [if_neg hc, if_pos h]
  · rw [if_neg h1, if_neg h2]

/-- Witness for C10: the mixed-case string "Call" selects the call price. -/
theorem C10_option_type_dispatch_witness :
    calculate_option_price 100 95 1 0 1 "Call"
      = Except.ok (BlackScholes.call_price ⟨100, 95, 1, 0, 1⟩) :=
  (C10_option_type_dispatch 100 95 1 0 1 "Call").1 (by decide)

end BSPricer
